import Mathlib

/-!
Formal model of the delta synchronization engine in `execute_qlik_delta.js`
(class `QlikDeltaExecutor`) and of the per-month workflow runner shell script.

The JavaScript is embedded shallowly:
  * a row of `qlik_invoice_view_delta` becomes `QueryData`;
  * the result object built by `executeSingleQuery` becomes `QueryResult`
    (on success the JS object has no `mdm_sql` field, hence `Option`);
  * the store (`sequelize.query` on an operation payload) is an oracle
    `String → Except String Unit`, `Except.error msg` standing for a thrown
    error with message `msg`;
  * `executeAllQueries` is modelled functionally as a left fold performing the
    per-item action of the `async.eachOfLimit` callback (collect the failure,
    or bump `successCount`), and separately as a bounded worker-pool
    transition system (`PoolStep` / `PoolReach`) for the concurrency bound;
  * `execute()` is modelled as a trace of observable events, with
    `process.exit(1)` in the catch block terminating the trace immediately
    (in Node, `process.exit` prevents the `finally` block from running).
-/

/-- One row fetched from `qlik_invoice_view_delta`: a change operation with a
stable id, an optional parent group id, and the SQL payload. -/
structure QueryData where
  invoice_line_id : Nat
  mdm_invoice_id : Option String
  mdm_sql : String
deriving DecidableEq, Repr

/-- The outcome object returned by `executeSingleQuery`: on success the JS
object is `{invoice_line_id, success: true, error: null}`; on failure it also
carries the original payload `mdm_sql`. -/
structure QueryResult where
  invoice_line_id : Nat
  success : Bool
  error : Option String
  mdm_sql : Option String
deriving DecidableEq, Repr

/-- Shallow embedding of `executeSingleQuery`: run the payload against the
store; a thrown error is caught and converted into a failed result carrying
the id, the error message and the original payload. -/
def executeSingleQuery (exec : String → Except String Unit) (q : QueryData) : QueryResult :=
  match exec q.mdm_sql with
  | Except.ok _ =>
      { invoice_line_id := q.invoice_line_id, success := true
        error := none, mdm_sql := none }
  | Except.error msg =>
      { invoice_line_id := q.invoice_line_id, success := false
        error := some msg, mdm_sql := some q.mdm_sql }

/-- State accumulated by `executeAllQueries`: the operations attempted so far,
the instance field `this.failedQueries`, and the local `successCount`. -/
structure ExecAllResult where
  attempts : List QueryData
  failedQueries : List QueryResult
  successCount : Nat
deriving DecidableEq, Repr

/-- The per-item action of the `async.eachOfLimit` callback in
`executeAllQueries`: attempt the query once; push a failed result onto
`failedQueries`, otherwise increment `successCount`. -/
def execOneStep (exec : String → Except String Unit) (st : ExecAllResult)
    (q : QueryData) : ExecAllResult :=
  let r := executeSingleQuery exec q
  { attempts := st.attempts ++ [q]
    failedQueries := if r.success then st.failedQueries else st.failedQueries ++ [r]
    successCount := if r.success then st.successCount + 1 else st.successCount }

/-- Shallow embedding of `executeAllQueries`: every query of the batch is
attempted exactly once (the functional fold fixes one completion order; the
success/failure counts do not depend on it). `initFailed` is the content of
`this.failedQueries` when the method is entered (empty in a fresh run). -/
def executeAllQueries (exec : String → Except String Unit)
    (allQueries : List QueryData) (initFailed : List QueryResult) : ExecAllResult :=
  allQueries.foldl (execOneStep exec) ⟨[], initFailed, 0⟩

/-- A row of `mdm_invoice_qlik`: the group id and the soft-delete timestamp
`deleted_at` (set by the retirement UPDATE to `NOW()`). -/
structure QlikRow where
  mdm_invoice_id : String
  deleted_at : Option Nat
deriving DecidableEq, Repr

/-- The store state read and written by `safeDeleteChangedInvoiceRows`:
`markers` are the rows of `mdm_invoice_line_to_remove_qlik` (the removal
marker set), `qlik` the rows of `mdm_invoice_qlik`, and `updateFails` models
the store throwing on the bulk UPDATE statement. -/
structure GuardDB where
  markers : List String
  qlik : List QlikRow
  updateFails : Bool
deriving DecidableEq, Repr

/-- Effect of `UPDATE mdm_invoice_qlik SET deleted_at = NOW() WHERE
mdm_invoice_id IN (...)`: every row whose id is in the marker list gets
`deleted_at = now`; other rows are untouched. -/
def retireMatched (now : Nat) (ids : List String) (rows : List QlikRow) : List QlikRow :=
  rows.map fun r =>
    if r.mdm_invoice_id ∈ ids then { r with deleted_at := some now } else r

/-- Shallow embedding of `safeDeleteChangedInvoiceRows`: read the full marker
set; if it is empty, return `true` without touching the store; otherwise run
the single bulk UPDATE (which may throw) and return `true`. Note the JS
function returns the boolean `true`, not a count, and never removes rows from
`mdm_invoice_line_to_remove_qlik`. -/
def safeDeleteChangedInvoiceRows (now : Nat) (db : GuardDB) :
    Except String (GuardDB × Bool) :=
  let results := db.markers
  if results.length = 0 then Except.ok (db, true)
  else if db.updateFails then Except.error "update failed"
  else Except.ok ({ db with qlik := retireMatched now db.markers db.qlik }, true)

/-- The number of marker rows the guard pass reads and matches in its UPDATE
(the count the source logs as rows to be deleted). -/
def guardMatchedCount (db : GuardDB) : Nat := db.markers.length

/-- The ids of retired (soft-deleted) rows of `mdm_invoice_qlik`. -/
def retiredIds (rows : List QlikRow) : List String :=
  (rows.filter fun r => r.deleted_at.isSome).map fun r => r.mdm_invoice_id

/-- The concurrency ceiling passed to `async.eachOfLimit`
(`const CONCURRENCY_LIMIT = 500`). -/
def CONCURRENCY_LIMIT : Nat := 500

/-- Observable events of one `execute()` run, in emission order. -/
inductive ExEvent where
  | authed
  | fetched (n : Nat)
  | guardNoop
  | guardRetired (ids : List String)
  | guardSkipped
  | noQueries
  | attempt (q : QueryData)
  | summary (total succ failed : Nat)
  | failureFile (name : String) (records : List QueryResult)
  | exited (code : Nat)
  | connClosed
deriving DecidableEq, Repr

/-- Recognizer for operation-attempt events. -/
def isAttemptEv : ExEvent → Bool
  | ExEvent.attempt _ => true
  | _ => false

/-- Recognizer for events of a completed safe-delete pass. -/
def isGuardCompleted : ExEvent → Bool
  | ExEvent.guardNoop => true
  | ExEvent.guardRetired _ => true
  | _ => false

/-- Recognizer for all safe-delete phase events, including the skip notice. -/
def isGuardEv : ExEvent → Bool
  | ExEvent.guardNoop => true
  | ExEvent.guardRetired _ => true
  | ExEvent.guardSkipped => true
  | _ => false

/-- Recognizer for the execution-summary event. -/
def isSummaryEv : ExEvent → Bool
  | ExEvent.summary _ _ _ => true
  | _ => false

/-- Recognizer for the connection-close event of the `finally` block. -/
def isConnClosed : ExEvent → Bool
  | ExEvent.connClosed => true
  | _ => false

/-- The environment of one `execute()` run: whether `authenticate()` succeeds,
what `fetchDeltaQueries` returns (or throws), the guard tables, the store
oracle for operation payloads, the clock value used for `NOW()`, and the date
part of the run timestamp used in the failure-artifact name. -/
structure World where
  authOk : Bool
  fetch : Except String (List QueryData)
  guard : GuardDB
  runSql : String → Except String Unit
  now : Nat
  dateStr : String

/-- The safe-delete phase of `execute()`: when `safeDelete` is enabled, run
`safeDeleteChangedInvoiceRows` and report its outcome; when disabled, only log
the skip notice. A thrown error propagates to the caller. -/
def guardPhase (sd : Bool) (now : Nat) (g : GuardDB) : Except String (List ExEvent) :=
  if sd then
    match safeDeleteChangedInvoiceRows now g with
    | Except.ok _ =>
        Except.ok (if g.markers.length = 0 then [ExEvent.guardNoop]
                   else [ExEvent.guardRetired g.markers])
    | Except.error e => Except.error e
  else Except.ok [ExEvent.guardSkipped]

/-- Trace semantics of `execute()`. The try-block order is: authenticate,
fetch, conditional safe delete, early return on an empty batch, run all
queries, print the summary, write the failure artifact if any query failed.
Any thrown error reaches the catch block, which calls `process.exit(1)`;
since `process.exit` terminates the process at once, the `finally` block
(`sequelize.close()`) does not run on that path, so no `connClosed` event is
emitted there. -/
def execute (sd : Bool) (w : World) : List ExEvent :=
  if w.authOk = false then [ExEvent.exited 1]
  else
    match w.fetch with
    | Except.error _ => [ExEvent.authed, ExEvent.exited 1]
    | Except.ok allQueries =>
      let pre := [ExEvent.authed, ExEvent.fetched allQueries.length]
      match guardPhase sd w.now w.guard with
      | Except.error _ => pre ++ [ExEvent.exited 1]
      | Except.ok gev =>
        if allQueries.length = 0 then
          pre ++ gev ++ [ExEvent.noQueries, ExEvent.connClosed]
        else
          let r := executeAllQueries w.runSql allQueries []
          let sumEv := [ExEvent.summary allQueries.length
                          (allQueries.length - r.failedQueries.length)
                          r.failedQueries.length]
          let fileEv := if r.failedQueries.length > 0 then
              [ExEvent.failureFile ("failed_queries_" ++ w.dateStr ++ ".json")
                 r.failedQueries]
            else []
          pre ++ gev ++ r.attempts.map ExEvent.attempt ++ sumEv ++ fileEv
            ++ [ExEvent.connClosed]

/-- A state of the `async.eachOfLimit` worker pool: queued items, items whose
attempt is in flight, and completed outcomes. -/
structure PoolState where
  pending : List QueryData
  inFlight : List QueryData
  done : List QueryResult
deriving DecidableEq, Repr

/-- One scheduler step of `async.eachOfLimit` with ceiling `L`: admit the next
queued item only while fewer than `L` attempts are in flight, or complete an
in-flight attempt, recording the outcome `executeSingleQuery` produces. -/
inductive PoolStep (L : Nat) (exec : String → Except String Unit) :
    PoolState → PoolState → Prop where
  | start (q : QueryData) (rest : List QueryData) (s : PoolState) :
      s.pending = q :: rest → s.inFlight.length < L →
      PoolStep L exec s ⟨rest, q :: s.inFlight, s.done⟩
  | complete (q : QueryData) (s : PoolState) :
      q ∈ s.inFlight →
      PoolStep L exec s
        ⟨s.pending, s.inFlight.erase q, s.done ++ [executeSingleQuery exec q]⟩

/-- The initial pool state of an invocation on batch `qs`. -/
def initPool (qs : List QueryData) : PoolState := ⟨qs, [], []⟩

/-- States reachable during one bounded-executor invocation on batch `qs`
with ceiling `L`. -/
inductive PoolReach (L : Nat) (exec : String → Except String Unit)
    (qs : List QueryData) : PoolState → Prop where
  | init : PoolReach L exec qs (initPool qs)
  | step (s t : PoolState) : PoolReach L exec qs s → PoolStep L exec s t →
      PoolReach L exec qs t

/-- The three lines `run_cmd_with_retry` appends to the fail file for one
failed attempt: header, captured output, footer. -/
def attemptLines (attempt : Nat) (out : String) : List String :=
  ["---- attempt " ++ toString attempt ++ " output ----",
   out,
   "---- end attempt " ++ toString attempt ++ " ----"]

/-- The retry loop body of `run_cmd_with_retry`, with fuel standing for the
remaining iterations of `while [ attempt -le max_attempts ]`. `cmd k` gives
the success flag and captured output of attempt number `k`. Returns the final
success flag, the fail-file contents, and the number of attempts made. -/
def runAttempts : Nat → Nat → (Nat → Bool × String) → List String →
    Bool × List String × Nat
  | 0, _, _, ff => (false, ff, 0)
  | fuel + 1, attempt, cmd, ff =>
    if (cmd attempt).1 then (true, ff, 1)
    else
      let rec1 := runAttempts fuel (attempt + 1) cmd (ff ++ attemptLines attempt (cmd attempt).2)
      (rec1.1, rec1.2.1, rec1.2.2 + 1)

/-- Shallow embedding of the shell function `run_cmd_with_retry`:
`max_attempts=2`, starting at attempt 1, appending every failed attempt's
output to the fail file. -/
def run_cmd_with_retry (cmd : Nat → Bool × String) (ff : List String) :
    Bool × List String × Nat :=
  runAttempts 2 1 cmd ff

/-- Final disposition of one month (work unit) in the workflow runner. -/
inductive MonthStatus where
  | completed
  | skippedMissingFile
  | part1Failed
  | part2Failed
deriving DecidableEq, Repr

/-- One month of the runner's fixed list: whether its invoice file exists and
the behavior of each attempt of its two stages (part 1: convert and load the
spreadsheet; part 2: run the delta executor). -/
structure MonthSpec where
  mm : String
  invoiceExists : Bool
  part1 : Nat → Bool × String
  part2 : Nat → Bool × String

/-- Outcome of processing one month: status, per-month fail-file contents,
and how many attempts each part consumed. -/
structure MonthOutcome where
  status : MonthStatus
  failLog : List String
  part1Tries : Nat
  part2Tries : Nat
deriving DecidableEq, Repr

/-- The body of the month loop: skip (with a logged notice) when the invoice
file is missing; otherwise run part 1 with retry, and only on its success run
part 2 with retry; a part that exhausts its attempts leaves the month failed
and the loop continues with the next month. -/
def processMonth (m : MonthSpec) : MonthOutcome :=
  if m.invoiceExists = false then
    ⟨MonthStatus.skippedMissingFile, ["Invoice file missing"], 0, 0⟩
  else
    let r1 := run_cmd_with_retry m.part1 []
    if r1.1 then
      let r2 := run_cmd_with_retry m.part2 r1.2.1
      if r2.1 then ⟨MonthStatus.completed, r2.2.1, r1.2.2, r2.2.2⟩
      else ⟨MonthStatus.part2Failed, r2.2.1, r1.2.2, r2.2.2⟩
    else ⟨MonthStatus.part1Failed, r1.2.1, r1.2.2, 0⟩

/-- The whole runner: every month of the fixed ordered list is processed, in
order, regardless of earlier failures (`continue`, never `exit`). -/
def workflow (months : List MonthSpec) : List MonthOutcome :=
  months.map processMonth

/-- Numeric value of a list of decimal digit characters. -/
def digitsToNat (ds : List Char) : Nat :=
  ds.foldl (fun a c => a * 10 + (c.toNat - 48)) 0

/-- Model of JavaScript `parseInt(s, 10)`: skip leading whitespace, read an
optional sign, then the longest prefix of decimal digits; `none` models the
`NaN` result when no digit is found. -/
def jsParseInt10 (s : String) : Option Int :=
  let cs := s.toList.dropWhile fun c => c = ' ' ∨ c = '\t' ∨ c = '\n' ∨ c = '\r'
  let signed : Int × List Char :=
    match cs with
    | '-' :: rest => (-1, rest)
    | '+' :: rest => (1, rest)
    | _ => (1, cs)
  let ds := signed.2.takeWhile fun c => '0' ≤ c ∧ c ≤ '9'
  if ds.isEmpty then none
  else some (signed.1 * Int.ofNat (digitsToNat ds))

/-- The CLI line `parseInt(process.argv[3] ?? '1', 10) || 0`: default the
missing argument to the string `1`, parse it, and collapse the falsy values
`NaN`, `0` and `-0` to `0`. -/
def safeDeleteFlagOfArg (arg : Option String) : Int :=
  match jsParseInt10 (arg.getD "1") with
  | none => 0
  | some n => if n = 0 then 0 else n

/-- The constructor option `Boolean(safeDeleteFlag)`: the safe-delete pass is
enabled exactly when the flag value is nonzero. -/
def safeDeleteEnabled (arg : Option String) : Bool :=
  decide (safeDeleteFlagOfArg arg ≠ 0)

/-- Recognizer for the failure-artifact event. -/
def isFailureFileEv : ExEvent → Bool
  | ExEvent.failureFile _ _ => true
  | _ => false

/-- Store oracle that rejects every payload. -/
def execBoom : String → Except String Unit := fun _ => Except.error "boom"

/-- Store oracle that rejects exactly the payload `bad`. -/
def execSelective : String → Except String Unit := fun s =>
  if s = "bad" then Except.error "constraint violation" else Except.ok ()

/-- A sample change operation whose payload the selective oracle accepts. -/
def qGood : QueryData := ⟨1, some "g1", "good sql"⟩

/-- A sample change operation whose payload the selective oracle rejects. -/
def qBad : QueryData := ⟨2, none, "bad"⟩

/-- A run environment whose guard UPDATE throws (non-empty marker set and a
store that rejects the bulk retirement statement). -/
def wC2 : World :=
  { authOk := true, fetch := Except.ok [qGood]
    guard := { markers := ["g1"], qlik := [⟨"g1", none⟩], updateFails := true }
    runSql := execSelective, now := 3, dateStr := "2024-09-30" }

/-- A guard store holding one removal marker for a live row. -/
def dbC7 : GuardDB := { markers := ["g1"], qlik := [⟨"g1", none⟩], updateFails := false }

/-- The guard store after one successful pass over `dbC7` at time 1: the row
is retired but the marker row is still present. -/
def dbC7after : GuardDB := { markers := ["g1"], qlik := [⟨"g1", some 1⟩], updateFails := false }

/-- A guard store with one marker and two rows, one of them matched. -/
def dbC3 : GuardDB :=
  { markers := ["g1"], qlik := [⟨"g1", none⟩, ⟨"g2", none⟩], updateFails := false }

/-- A run environment fetching one succeeding and one failing operation. -/
def wC6 : World :=
  { authOk := true, fetch := Except.ok [qGood, qBad]
    guard := { markers := [], qlik := [], updateFails := false }
    runSql := execSelective, now := 3, dateStr := "2024-09-30" }

/-- A run environment whose fetched batch is empty. -/
def wC6empty : World :=
  { authOk := true, fetch := Except.ok []
    guard := { markers := [], qlik := [], updateFails := false }
    runSql := execSelective, now := 3, dateStr := "2024-09-30" }

/-- A run environment whose fetch throws (staging store unreachable). -/
def wC9 : World :=
  { authOk := true, fetch := Except.error "connection refused"
    guard := { markers := [], qlik := [], updateFails := false }
    runSql := execSelective, now := 3, dateStr := "2024-09-30" }

/-- A run environment that completes with an empty batch (a successful exit
path, used to contrast the close behavior of the two paths). -/
def wC9ok : World :=
  { authOk := true, fetch := Except.ok []
    guard := { markers := [], qlik := [], updateFails := false }
    runSql := execSelective, now := 3, dateStr := "2024-10-01" }

/-- A month whose first stage fails on every attempt. -/
def mC5 : MonthSpec :=
  { mm := "09", invoiceExists := true
    part1 := fun k => (false, "part1 boom " ++ toString k)
    part2 := fun _ => (true, "") }

theorem execAll_foldl_spec (exec : String → Except String Unit) (qs : List QueryData)
    (st : ExecAllResult) :
    (qs.foldl (execOneStep exec) st).attempts = st.attempts ++ qs
  ∧ (qs.foldl (execOneStep exec) st).failedQueries
      = st.failedQueries
        ++ (qs.filter fun q => !(executeSingleQuery exec q).success).map (executeSingleQuery exec)
  ∧ (qs.foldl (execOneStep exec) st).successCount
      = st.successCount + (qs.filter fun q => (executeSingleQuery exec q).success).length := by
  induction qs generalizing st with
  | nil => simp
  | cons q rest ih =>
    rcases ih (execOneStep exec st q) with ⟨h1, h2, h3⟩
    by_cases hs : (executeSingleQuery exec q).success
    · refine ⟨?_, ?_, ?_⟩
      · rw [List.foldl_cons, h1]
        simp [execOneStep, hs]
      · rw [List.foldl_cons, h2]
        simp [execOneStep, hs, List.filter_cons]
      · rw [List.foldl_cons, h3]
        simp [execOneStep, hs, List.filter_cons]
        omega
    · refine ⟨?_, ?_, ?_⟩
      · rw [List.foldl_cons, h1]
        simp [execOneStep, hs]
      · rw [List.foldl_cons, h2]
        simp [execOneStep, hs, List.filter_cons]
      · rw [List.foldl_cons, h3]
        simp [execOneStep, hs, List.filter_cons]

theorem length_filter_partition {α : Type} (p : α → Bool) (l : List α) :
    (l.filter fun a => p a).length + (l.filter fun a => !(p a)).length = l.length := by
  induction l with
  | nil => rfl
  | cons a t ih =>
    by_cases h : p a <;> simp [List.filter_cons, h] <;> omega

/-- C1: one invocation of `executeAllQueries` attempts each operation of the
input batch exactly once (the attempt list is the input list itself, so no
operation is dropped, duplicated, or retried), the accumulated failed queries
are exactly the failing attempts appended to the prior accumulator, and the
success count plus the accumulated failure count equals the input length. -/
theorem executeAllQueries_one_outcome_per_operation (exec : String → Except String Unit)
    (qs : List QueryData) (initFailed : List QueryResult) :
    (executeAllQueries exec qs initFailed).attempts = qs
  ∧ (executeAllQueries exec qs initFailed).failedQueries
      = initFailed
        ++ (qs.filter fun q => !(executeSingleQuery exec q).success).map (executeSingleQuery exec)
  ∧ (executeAllQueries exec qs initFailed).successCount
      + ((executeAllQueries exec qs initFailed).failedQueries.length - initFailed.length)
      = qs.length := by
  rcases execAll_foldl_spec exec qs ⟨[], initFailed, 0⟩ with ⟨h1, h2, h3⟩
  have e1 : (executeAllQueries exec qs initFailed).attempts = qs := by
    rw [executeAllQueries, h1]; simp
  have e2 : (executeAllQueries exec qs initFailed).failedQueries
      = initFailed
        ++ (qs.filter fun q => !(executeSingleQuery exec q).success).map (executeSingleQuery exec) := by
    rw [executeAllQueries, h2]
  have e3 : (executeAllQueries exec qs initFailed).successCount
      = (qs.filter fun q => (executeSingleQuery exec q).success).length := by
    rw [executeAllQueries, h3]; simp
  refine ⟨e1, e2, ?_⟩
  rw [e2, e3]
  have hp := length_filter_partition (fun q => (executeSingleQuery exec q).success) qs
  simp only [List.length_append, List.length_map]
  omega




theorem executeSingleQuery_failure_shape (exec : String → Except String Unit)
    (q : QueryData) (h : (executeSingleQuery exec q).success = false) :
    ∃ msg, exec q.mdm_sql = Except.error msg
    ∧ executeSingleQuery exec q
        = { invoice_line_id := q.invoice_line_id, success := false
            error := some msg, mdm_sql := some q.mdm_sql } := by
  cases hx : exec q.mdm_sql with
  | ok u =>
    exfalso
    rw [executeSingleQuery, hx] at h
    simp at h
  | error msg =>
    refine ⟨msg, rfl, ?_⟩
    rw [executeSingleQuery, hx]

/-- C4: an error raised by an operation's payload is caught inside
`executeSingleQuery` and converted into a failed outcome carrying the
operation id, the error message and the original payload; the batch still
attempts every operation of the input (the failure aborts neither siblings
nor the run), and the failed outcome is recorded in the accumulated failures
whenever the operation is part of the batch. -/
theorem executeSingleQuery_converts_failure (exec : String → Except String Unit)
    (q : QueryData) (msg : String) (h : exec q.mdm_sql = Except.error msg)
    (qs : List QueryData) (initFailed : List QueryResult) :
    executeSingleQuery exec q
      = { invoice_line_id := q.invoice_line_id, success := false
          error := some msg, mdm_sql := some q.mdm_sql }
  ∧ (executeAllQueries exec qs initFailed).attempts = qs
  ∧ (q ∈ qs → executeSingleQuery exec q ∈ (executeAllQueries exec qs initFailed).failedQueries) := by
  have hshape : executeSingleQuery exec q
      = { invoice_line_id := q.invoice_line_id, success := false
          error := some msg, mdm_sql := some q.mdm_sql } := by
    rw [executeSingleQuery, h]
  rcases execAll_foldl_spec exec qs ⟨[], initFailed, 0⟩ with ⟨h1, h2, _⟩
  refine ⟨hshape, by rw [executeAllQueries, h1]; simp, ?_⟩
  intro hq
  rw [executeAllQueries, h2]
  simp only [List.mem_append]
  right
  refine List.mem_map_of_mem (executeSingleQuery exec) ?_
  rw [List.mem_filter]
  refine ⟨hq, ?_⟩
  rw [hshape]
  rfl

/-- Witness for C4 at a concrete failing payload. -/
theorem executeSingleQuery_converts_failure_witness :
    executeSingleQuery execBoom qGood
      = { invoice_line_id := qGood.invoice_line_id, success := false
          error := some "boom", mdm_sql := some qGood.mdm_sql }
  ∧ (executeAllQueries execBoom [qGood] []).attempts = [qGood]
  ∧ (qGood ∈ [qGood] →
      executeSingleQuery execBoom qGood ∈ (executeAllQueries execBoom [qGood] []).failedQueries) := by
  exact executeSingleQuery_converts_failure execBoom qGood "boom" rfl [qGood] []

theorem safeDelete_ok_cases (t : Nat) (db db1 : GuardDB) (b : Bool)
    (h : safeDeleteChangedInvoiceRows t db = Except.ok (db1, b)) :
    b = true ∧ ((db.markers = [] ∧ db1 = db)
      ∨ (db.markers ≠ [] ∧ db.updateFails = false
         ∧ db1 = { db with qlik := retireMatched t db.markers db.qlik })) := by
  simp only [safeDeleteChangedInvoiceRows] at h
  split_ifs at h with hm hf
  · rw [Except.ok.injEq, Prod.mk.injEq] at h
    exact ⟨h.2.symm, Or.inl ⟨List.length_eq_zero.mp hm, h.1.symm⟩⟩
  · rw [Except.ok.injEq, Prod.mk.injEq] at h
    refine ⟨h.2.symm, Or.inr ⟨?_, by simpa using hf, h.1.symm⟩⟩
    intro hx
    exact hm (by rw [hx]; rfl)

theorem safeDelete_ok_of_not_fails (t : Nat) (db : GuardDB) (hf : db.updateFails = false) :
    safeDeleteChangedInvoiceRows t db
      = Except.ok ((if db.markers.length = 0 then db
                    else { db with qlik := retireMatched t db.markers db.qlik }), true) := by
  simp only [safeDeleteChangedInvoiceRows]
  by_cases hm : db.markers.length = 0
  · simp [hm]
  · simp [hm, hf]

/-- C3 (amended): the guard pass returns the boolean `true` on success (the
count of matched marker rows is logged, not returned); when the marker set is
empty it is a no-op succeeding with the store untouched, and when it is
non-empty it performs the single bulk retirement UPDATE, which stamps every
matched row with the retirement time, leaves unmatched rows untouched, and
preserves the number of rows. -/
theorem safeDelete_noop_or_bulk_retire (now : Nat) (db : GuardDB) :
    (db.markers = [] → safeDeleteChangedInvoiceRows now db = Except.ok (db, true))
  ∧ (db.markers ≠ [] → db.updateFails = false →
      safeDeleteChangedInvoiceRows now db
        = Except.ok ({ db with qlik := retireMatched now db.markers db.qlik }, true)
      ∧ (retireMatched now db.markers db.qlik).length = db.qlik.length
      ∧ (∀ r ∈ db.qlik, r.mdm_invoice_id ∈ db.markers →
           { r with deleted_at := some now } ∈ retireMatched now db.markers db.qlik)
      ∧ (∀ r ∈ db.qlik, r.mdm_invoice_id ∉ db.markers →
           r ∈ retireMatched now db.markers db.qlik)) := by
  constructor
  · intro h
    simp only [safeDeleteChangedInvoiceRows, h]
    rfl
  · intro h hf
    have hlen : ¬ db.markers.length = 0 := by
      intro hx
      exact h (List.length_eq_zero.mp hx)
    refine ⟨?_, ?_, ?_, ?_⟩
    · simp only [safeDeleteChangedInvoiceRows, hlen, hf]
      simp
    · rw [retireMatched]
      simp
    · intro r hr hmem
      rw [retireMatched]
      exact List.mem_map.mpr ⟨r, hr, by simp [hmem]⟩
    · intro r hr hmem
      rw [retireMatched]
      exact List.mem_map.mpr ⟨r, hr, by simp [hmem]⟩

/-- C3 counterexample: the source function returns the boolean `true`, not a
count of retired groups. With an empty marker set it returns `true` (the
claim says it returns the count `0`), and with a two-marker set its returned
value is still `true` (the claim says `2`): the return value carries no
count. -/
theorem safeDelete_returns_bool_not_count :
    safeDeleteChangedInvoiceRows 7 { markers := [], qlik := [], updateFails := false }
      = Except.ok ({ markers := [], qlik := [], updateFails := false }, true)
  ∧ (safeDeleteChangedInvoiceRows 7
        { markers := ["g1", "g2"], qlik := [], updateFails := false }).toOption.map Prod.snd
      = some true := by
  exact ⟨rfl, rfl⟩

/-- Witness for the amended C3 at a concrete non-empty marker set. -/
theorem safeDelete_noop_or_bulk_retire_witness :
    safeDeleteChangedInvoiceRows 4 dbC3
      = Except.ok ({ dbC3 with qlik := retireMatched 4 dbC3.markers dbC3.qlik }, true)
  ∧ (retireMatched 4 dbC3.markers dbC3.qlik).length = dbC3.qlik.length := by
  have h := (safeDelete_noop_or_bulk_retire 4 dbC3).2 (by decide) rfl
  exact ⟨h.1, h.2.1⟩

theorem retireMatched_comp (t1 t2 : Nat) (ids : List String) (rows : List QlikRow) :
    retireMatched t2 ids (retireMatched t1 ids rows) = retireMatched t2 ids rows := by
  rw [retireMatched, retireMatched, retireMatched, List.map_map]
  have hfun : ((fun r : QlikRow =>
        if r.mdm_invoice_id ∈ ids then { r with deleted_at := some t2 } else r) ∘
      (fun r : QlikRow =>
        if r.mdm_invoice_id ∈ ids then { r with deleted_at := some t1 } else r))
      = fun r : QlikRow =>
        if r.mdm_invoice_id ∈ ids then { r with deleted_at := some t2 } else r := by
    funext r
    by_cases h : r.mdm_invoice_id ∈ ids <;> simp [Function.comp, h]
  rw [hfun]

theorem retiredIds_retireMatched_time (t1 t2 : Nat) (ids : List String)
    (rows : List QlikRow) :
    retiredIds (retireMatched t2 ids rows) = retiredIds (retireMatched t1 ids rows) := by
  induction rows with
  | nil => rfl
  | cons r rs ih =>
    simp only [retireMatched, List.map_cons] at ih ⊢
    by_cases h : r.mdm_invoice_id ∈ ids
    · simp only [h, if_pos]
      simp only [retiredIds, List.filter_cons] at ih ⊢
      simp [ih]
    · simp only [h, if_neg, not_false_iff]
      simp only [retiredIds, List.filter_cons] at ih ⊢
      by_cases hd : r.deleted_at.isSome <;> simp [hd, ih]

/-- C7 (amended): running the guard twice in succession with no new removal
markers is idempotent only on the retirement state: the set of retired group
ids after the second pass equals the set after the first. The markers are not
consumed, so the second pass re-reads the same marker set and matches the
same number of rows as the first (not 0). -/
theorem guard_twice_stable_retired_set (t1 t2 : Nat) (db db1 : GuardDB) (b : Bool)
    (hfail : db.updateFails = false)
    (h1 : safeDeleteChangedInvoiceRows t1 db = Except.ok (db1, b)) :
    db1.markers = db.markers
  ∧ guardMatchedCount db1 = guardMatchedCount db
  ∧ ∃ db2, safeDeleteChangedInvoiceRows t2 db1 = Except.ok (db2, true)
      ∧ retiredIds db2.qlik = retiredIds db1.qlik := by
  rcases safeDelete_ok_cases t1 db db1 b h1 with ⟨_, hcase⟩
  rcases hcase with ⟨hm, hdb⟩ | ⟨hm, _, hdb⟩
  · subst hdb
    refine ⟨rfl, rfl, db1, ?_, rfl⟩
    rw [safeDelete_ok_of_not_fails t2 db1 hfail]
    have : db1.markers.length = 0 := by rw [hm]; rfl
    rw [if_pos this]
  · have hmk : db1.markers = db.markers := by rw [hdb]
    have hfail1 : db1.updateFails = false := by rw [hdb]; exact hfail
    have hq1 : db1.qlik = retireMatched t1 db.markers db.qlik := by rw [hdb]
    refine ⟨hmk, by rw [guardMatchedCount, guardMatchedCount, hmk], ?_⟩
    have hlen : ¬ db1.markers.length = 0 := by
      rw [hmk]
      intro hx
      exact hm (List.length_eq_zero.mp hx)
    refine ⟨{ db1 with qlik := retireMatched t2 db1.markers db1.qlik }, ?_, ?_⟩
    · rw [safeDelete_ok_of_not_fails t2 db1 hfail1, if_neg hlen]
    · show retiredIds (retireMatched t2 db1.markers db1.qlik) = retiredIds db1.qlik
      rw [hmk, hq1, retireMatched_comp t1 t2 db.markers db.qlik]
      exact retiredIds_retireMatched_time t1 t2 db.markers db.qlik

/-- C7 counterexample: a store with one removal marker for a live row. The
first guard pass retires the row but leaves the marker in place, so the
second consecutive pass re-reads the same marker set and matches 1 row, not
the 0 rows the claim predicts. -/
theorem guard_second_run_rematches_markers :
    safeDeleteChangedInvoiceRows 1 dbC7 = Except.ok (dbC7after, true)
  ∧ dbC7after.markers = ["g1"]
  ∧ guardMatchedCount dbC7after = 1
  ∧ safeDeleteChangedInvoiceRows 2 dbC7after
      = Except.ok ({ markers := ["g1"], qlik := [⟨"g1", some 2⟩], updateFails := false }, true) := by
  exact ⟨rfl, rfl, rfl, rfl⟩

/-- Witness for the amended C7 at the concrete one-marker store. -/
theorem guard_twice_stable_retired_set_witness :
    dbC7after.markers = dbC7.markers
  ∧ guardMatchedCount dbC7after = guardMatchedCount dbC7
  ∧ ∃ db2, safeDeleteChangedInvoiceRows 2 dbC7after = Except.ok (db2, true)
      ∧ retiredIds db2.qlik = retiredIds dbC7after.qlik := by
  exact guard_twice_stable_retired_set 1 2 dbC7 dbC7after true rfl rfl

theorem guardPhase_false (now : Nat) (g : GuardDB) :
    guardPhase false now g = Except.ok [ExEvent.guardSkipped] := rfl

theorem guardPhase_fails (now : Nat) (g : GuardDB) (h1 : g.markers ≠ [])
    (h2 : g.updateFails = true) :
    guardPhase true now g = Except.error "update failed" := by
  have hlen : ¬ g.markers.length = 0 := fun hx => h1 (List.length_eq_zero.mp hx)
  have hsd : safeDeleteChangedInvoiceRows now g = Except.error "update failed" := by
    simp only [safeDeleteChangedInvoiceRows, hlen, h2]
    simp
  simp [guardPhase, hsd]

theorem guardPhase_true_ok (now : Nat) (g : GuardDB) (gev : List ExEvent)
    (h : guardPhase true now g = Except.ok gev) :
    gev = [ExEvent.guardNoop] ∨ gev = [ExEvent.guardRetired g.markers] := by
  cases hres : safeDeleteChangedInvoiceRows now g with
  | ok p =>
    simp only [guardPhase, if_true, hres] at h
    rw [Except.ok.injEq] at h
    by_cases hm : g.markers.length = 0
    · left
      rw [← h, if_pos hm]
    · right
      rw [← h, if_neg hm]
  | error e =>
    simp only [guardPhase, if_true, hres] at h
    exact Except.noConfusion h

theorem guardPhase_ok_guard_events (sd : Bool) (now : Nat) (g : GuardDB)
    (gev : List ExEvent) (h : guardPhase sd now g = Except.ok gev) :
    ∀ e ∈ gev, isGuardEv e = true ∧ isAttemptEv e = false := by
  cases sd with
  | false =>
    rw [guardPhase_false] at h
    rw [Except.ok.injEq] at h
    intro e he
    rw [← h] at he
    simp only [List.mem_singleton] at he
    subst he
    exact ⟨rfl, rfl⟩
  | true =>
    rcases guardPhase_true_ok now g gev h with hg | hg <;>
      · subst hg
        intro e he
        simp only [List.mem_singleton] at he
        subst he
        exact ⟨rfl, rfl⟩

theorem execute_eq_noauth (sd : Bool) (w : World) (ha : w.authOk = false) :
    execute sd w = [ExEvent.exited 1] := by
  simp [execute, ha]

theorem execute_eq_fetchfail (sd : Bool) (w : World) (e : String)
    (ha : w.authOk = true) (hf : w.fetch = Except.error e) :
    execute sd w = [ExEvent.authed, ExEvent.exited 1] := by
  simp [execute, ha, hf]

theorem execute_eq_guardfail (sd : Bool) (w : World) (e : String) (qs : List QueryData)
    (ha : w.authOk = true) (hf : w.fetch = Except.ok qs)
    (hg : guardPhase sd w.now w.guard = Except.error e) :
    execute sd w = [ExEvent.authed, ExEvent.fetched qs.length, ExEvent.exited 1] := by
  simp [execute, ha, hf, hg]

theorem execute_eq_empty (sd : Bool) (w : World) (qs : List QueryData)
    (gev : List ExEvent) (ha : w.authOk = true) (hf : w.fetch = Except.ok qs)
    (hg : guardPhase sd w.now w.guard = Except.ok gev) (hq : qs.length = 0) :
    execute sd w
      = [ExEvent.authed, ExEvent.fetched qs.length] ++ gev
        ++ [ExEvent.noQueries, ExEvent.connClosed] := by
  simp [execute, ha, hf, hg, hq]

theorem execute_eq_run (sd : Bool) (w : World) (qs : List QueryData)
    (gev : List ExEvent) (ha : w.authOk = true) (hf : w.fetch = Except.ok qs)
    (hg : guardPhase sd w.now w.guard = Except.ok gev) (hq : ¬ qs.length = 0) :
    execute sd w
      = [ExEvent.authed, ExEvent.fetched qs.length] ++ gev
        ++ (executeAllQueries w.runSql qs []).attempts.map ExEvent.attempt
        ++ [ExEvent.summary qs.length
              (qs.length - (executeAllQueries w.runSql qs []).failedQueries.length)
              (executeAllQueries w.runSql qs []).failedQueries.length]
        ++ (if (executeAllQueries w.runSql qs []).failedQueries.length > 0 then
              [ExEvent.failureFile ("failed_queries_" ++ w.dateStr ++ ".json")
                 (executeAllQueries w.runSql qs []).failedQueries]
            else [])
        ++ [ExEvent.connClosed] := by
  simp [execute, ha, hf, hg, hq]

theorem mem_pair {α : Type} {e a b : α} (h : e ∈ [a, b]) : e = a ∨ e = b := by
  rcases List.mem_cons.mp h with h1 | h1
  · exact Or.inl h1
  · exact Or.inr (List.mem_singleton.mp h1)

theorem mem_triple {α : Type} {e a b c : α} (h : e ∈ [a, b, c]) :
    e = a ∨ e = b ∨ e = c := by
  rcases List.mem_cons.mp h with h1 | h1
  · exact Or.inl h1
  · exact Or.inr (mem_pair h1)

/-- C2: in every run of `execute()`, the safe-delete pass completes (or is
skipped when disabled by configuration) before any change operation is
applied: the trace splits into a prefix with no attempt events — containing a
guard-completion event whenever any operation is attempted with safe delete
enabled — followed by a suffix with no guard events; and when the safe-delete
pass fails, the run aborts (exit code 1) with no operation attempted at
all. -/
theorem execute_guard_gates_attempts (sd : Bool) (w : World) :
    (sd = true → w.guard.markers ≠ [] → w.guard.updateFails = true →
      (execute sd w).filter isAttemptEv = [] ∧ ExEvent.exited 1 ∈ execute sd w)
  ∧ ∃ p s, execute sd w = p ++ s
      ∧ (∀ e ∈ p, isAttemptEv e = false)
      ∧ (∀ e ∈ s, isGuardEv e = false)
      ∧ ((∃ e ∈ s, isAttemptEv e = true) → sd = true →
          ∃ e ∈ p, isGuardCompleted e = true) := by
  by_cases ha : w.authOk = false
  · rw [execute_eq_noauth sd w ha]
    refine ⟨fun _ _ _ => ⟨rfl, by simp⟩, [ExEvent.exited 1], [], by simp, ?_, ?_, ?_⟩
    · intro e he
      obtain rfl := List.mem_singleton.mp he
      rfl
    · intro e he
      exact absurd he (List.not_mem_nil e)
    · rintro ⟨e, he, _⟩
      exact absurd he (List.not_mem_nil e)
  · have ha1 : w.authOk = true := by
      cases hx : w.authOk
      · exact absurd hx ha
      · rfl
    cases hf : w.fetch with
    | error err =>
      rw [execute_eq_fetchfail sd w err ha1 hf]
      refine ⟨fun _ _ _ => ⟨rfl, by simp⟩,
              [ExEvent.authed, ExEvent.exited 1], [], by simp, ?_, ?_, ?_⟩
      · intro e he
        rcases mem_pair he with rfl | rfl <;> rfl
      · intro e he
        exact absurd he (List.not_mem_nil e)
      · rintro ⟨e, he, _⟩
        exact absurd he (List.not_mem_nil e)
    | ok qs =>
      cases hg : guardPhase sd w.now w.guard with
      | error err =>
        rw [execute_eq_guardfail sd w err qs ha1 hf hg]
        refine ⟨fun _ _ _ => ⟨rfl, by simp⟩,
                [ExEvent.authed, ExEvent.fetched qs.length, ExEvent.exited 1], [],
                by simp, ?_, ?_, ?_⟩
        · intro e he
          rcases mem_triple he with rfl | rfl | rfl <;> rfl
        · intro e he
          exact absurd he (List.not_mem_nil e)
        · rintro ⟨e, he, _⟩
          exact absurd he (List.not_mem_nil e)
      | ok gev =>
        have hnofail : sd = true → w.guard.markers ≠ [] → w.guard.updateFails = true →
            (execute sd w).filter isAttemptEv = [] ∧ ExEvent.exited 1 ∈ execute sd w := by
          intro hsd h1 h2
          subst hsd
          rw [guardPhase_fails w.now w.guard h1 h2] at hg
          exact Except.noConfusion hg
        have hgev := guardPhase_ok_guard_events sd w.now w.guard gev hg
        refine ⟨hnofail, ?_⟩
        by_cases hq : qs.length = 0
        · refine ⟨[ExEvent.authed, ExEvent.fetched qs.length] ++ gev
              ++ [ExEvent.noQueries, ExEvent.connClosed], [],
              by rw [execute_eq_empty sd w qs gev ha1 hf hg hq, List.append_nil], ?_, ?_, ?_⟩
          · intro e he
            rcases List.mem_append.mp he with h1 | h1
            · rcases List.mem_append.mp h1 with h2 | h2
              · rcases mem_pair h2 with rfl | rfl <;> rfl
              · exact (hgev e h2).2
            · rcases mem_pair h1 with rfl | rfl <;> rfl
          · intro e he
            exact absurd he (List.not_mem_nil e)
          · rintro ⟨e, he, _⟩
            exact absurd he (List.not_mem_nil e)
        · refine ⟨[ExEvent.authed, ExEvent.fetched qs.length] ++ gev,
              (executeAllQueries w.runSql qs []).attempts.map ExEvent.attempt
              ++ [ExEvent.summary qs.length
                    (qs.length - (executeAllQueries w.runSql qs []).failedQueries.length)
                    (executeAllQueries w.runSql qs []).failedQueries.length]
              ++ (if (executeAllQueries w.runSql qs []).failedQueries.length > 0 then
                    [ExEvent.failureFile ("failed_queries_" ++ w.dateStr ++ ".json")
                       (executeAllQueries w.runSql qs []).failedQueries]
                  else [])
              ++ [ExEvent.connClosed], ?_, ?_, ?_, ?_⟩
          · rw [execute_eq_run sd w qs gev ha1 hf hg hq]
            simp only [List.append_assoc]
          · intro e he
            rcases List.mem_append.mp he with h1 | h1
            · rcases mem_pair h1 with rfl | rfl <;> rfl
            · exact (hgev e h1).2
          · intro e he
            rcases List.mem_append.mp he with h1 | h1
            · rcases List.mem_append.mp h1 with h2 | h2
              · rcases List.mem_append.mp h2 with h3 | h3
                · rcases List.mem_map.mp h3 with ⟨q, _, hqe⟩
                  rw [← hqe]
                  rfl
                · obtain rfl := List.mem_singleton.mp h3
                  rfl
              · by_cases hc : (executeAllQueries w.runSql qs []).failedQueries.length > 0
                · rw [if_pos hc] at h2
                  obtain rfl := List.mem_singleton.mp h2
                  rfl
                · rw [if_neg hc] at h2
                  exact absurd h2 (List.not_mem_nil e)
            · obtain rfl := List.mem_singleton.mp h1
              rfl
          · intro _ hsd
            subst hsd
            rcases guardPhase_true_ok w.now w.guard gev hg with hcase | hcase
            · subst hcase
              exact ⟨ExEvent.guardNoop, List.mem_append.mpr (Or.inr (by simp)), rfl⟩
            · subst hcase
              exact ⟨ExEvent.guardRetired w.guard.markers,
                     List.mem_append.mpr (Or.inr (by simp)), rfl⟩

/-- Witness for C2 at a run whose guard UPDATE throws: no operation is
attempted and the run exits with code 1. -/
theorem execute_guard_gates_attempts_witness :
    (execute true wC2).filter isAttemptEv = [] ∧ ExEvent.exited 1 ∈ execute true wC2 := by
  exact (execute_guard_gates_attempts true wC2).1 rfl (by decide) rfl

/-- C6 (amended): in every run that reaches the execution phase (it
authenticates, fetches a non-empty batch, and completes or skips the guard
phase), the trace contains the summary event with total, success and failure
counts; a failure-artifact event occurs iff the accumulated failed queries
are non-empty; and every failure artifact is named deterministically from the
run date and contains exactly the accumulated failed outcomes, each the
failed outcome of an operation of the batch with its original payload intact.
A run whose fetched batch is empty returns early with no summary, which is
the sole correction to the claim. -/
theorem execute_failure_artifact_exact (sd : Bool) (w : World) (qs : List QueryData)
    (gev : List ExEvent) (ha : w.authOk = true) (hf : w.fetch = Except.ok qs)
    (hg : guardPhase sd w.now w.guard = Except.ok gev) (hq : ¬ qs.length = 0) :
    ExEvent.summary qs.length
        (qs.length - (executeAllQueries w.runSql qs []).failedQueries.length)
        (executeAllQueries w.runSql qs []).failedQueries.length ∈ execute sd w
  ∧ ((∃ name recs, ExEvent.failureFile name recs ∈ execute sd w)
      ↔ (executeAllQueries w.runSql qs []).failedQueries ≠ [])
  ∧ (∀ name recs, ExEvent.failureFile name recs ∈ execute sd w →
      name = "failed_queries_" ++ w.dateStr ++ ".json"
      ∧ recs = (executeAllQueries w.runSql qs []).failedQueries
      ∧ ∀ rec ∈ recs, rec.success = false
          ∧ ∃ q ∈ qs, rec = executeSingleQuery w.runSql q ∧ rec.mdm_sql = some q.mdm_sql) := by
  have hgev := guardPhase_ok_guard_events sd w.now w.guard gev hg
  have htrace := execute_eq_run sd w qs gev ha hf hg hq
  have hmemfile : ∀ name recs, ExEvent.failureFile name recs ∈ execute sd w →
      (executeAllQueries w.runSql qs []).failedQueries.length > 0
      ∧ name = "failed_queries_" ++ w.dateStr ++ ".json"
      ∧ recs = (executeAllQueries w.runSql qs []).failedQueries := by
    intro name recs hmem
    rw [htrace] at hmem
    rcases List.mem_append.mp hmem with h1 | h1
    · rcases List.mem_append.mp h1 with h2 | h2
      · rcases List.mem_append.mp h2 with h3 | h3
        · rcases List.mem_append.mp h3 with h4 | h4
          · rcases List.mem_append.mp h4 with h5 | h5
            · rcases mem_pair h5 with h6 | h6 <;> exact ExEvent.noConfusion h6
            · exact absurd (hgev _ h5).1 (by intro hx; exact Bool.noConfusion hx)
          · rcases List.mem_map.mp h4 with ⟨q, _, hqe⟩
            exact ExEvent.noConfusion hqe
        · obtain h4 := List.mem_singleton.mp h3
          exact ExEvent.noConfusion h4
      · by_cases hc : (executeAllQueries w.runSql qs []).failedQueries.length > 0
        · rw [if_pos hc] at h2
          obtain h3 := List.mem_singleton.mp h2
          have h4 := ExEvent.failureFile.injEq _ _ _ _ ▸ h3
          exact ⟨hc, h4.1, h4.2⟩
        · rw [if_neg hc] at h2
          exact absurd h2 (List.not_mem_nil _)
    · obtain h2 := List.mem_singleton.mp h1
      exact ExEvent.noConfusion h2
  refine ⟨?_, ⟨?_, ?_⟩, ?_⟩
  · rw [htrace]
    rcases execAll_foldl_spec w.runSql qs ⟨[], [], 0⟩ with ⟨hat, _, _⟩
    simp [List.mem_append]
  · rintro ⟨name, recs, hmem⟩
    rcases hmemfile name recs hmem with ⟨hc, _, _⟩
    intro hnil
    rw [hnil] at hc
    exact absurd hc (by simp)
  · intro hne
    have hc : (executeAllQueries w.runSql qs []).failedQueries.length > 0 :=
      List.length_pos.mpr hne
    refine ⟨"failed_queries_" ++ w.dateStr ++ ".json",
            (executeAllQueries w.runSql qs []).failedQueries, ?_⟩
    rw [htrace]
    rw [if_pos hc]
    simp [List.mem_append]
  · intro name recs hmem
    rcases hmemfile name recs hmem with ⟨_, hn, hr⟩
    refine ⟨hn, hr, ?_⟩
    intro rec hrec
    rw [hr] at hrec
    rcases execAll_foldl_spec w.runSql qs ⟨[], [], 0⟩ with ⟨_, hfq, _⟩
    rw [executeAllQueries] at hrec
    rw [hfq] at hrec
    simp only [List.nil_append] at hrec
    rcases List.mem_map.mp hrec with ⟨q, hqf, hrq⟩
    rcases List.mem_filter.mp hqf with ⟨hqmem, hqpred⟩
    have hsf : (executeSingleQuery w.runSql q).success = false := by
      cases hx : (executeSingleQuery w.runSql q).success with
      | false => rfl
      | true =>
        rw [hx] at hqpred
        exact absurd hqpred (by simp)
    rcases executeSingleQuery_failure_shape w.runSql q hsf with ⟨msg, _, hshape⟩
    refine ⟨?_, q, hqmem, hrq.symm, ?_⟩
    · rw [← hrq, hsf]
    · rw [← hrq, hshape]

/-- C6 counterexample: a run whose fetched batch is empty returns early after
the guard phase and emits no total/success/failure summary event at all,
contradicting the claim that the counts summary is produced at the end of
every run. -/
theorem execute_empty_batch_no_summary :
    execute true wC6empty
      = [ExEvent.authed, ExEvent.fetched 0, ExEvent.guardNoop, ExEvent.noQueries,
         ExEvent.connClosed]
  ∧ (execute true wC6empty).any isSummaryEv = false := by
  exact ⟨rfl, rfl⟩

/-- Witness for the amended C6 at a two-operation batch with one failing
operation. -/
theorem execute_failure_artifact_exact_witness :
    ExEvent.summary ([qGood, qBad] : List QueryData).length
        (([qGood, qBad] : List QueryData).length
          - (executeAllQueries wC6.runSql [qGood, qBad] []).failedQueries.length)
        (executeAllQueries wC6.runSql [qGood, qBad] []).failedQueries.length
      ∈ execute true wC6
  ∧ ((∃ name recs, ExEvent.failureFile name recs ∈ execute true wC6)
      ↔ (executeAllQueries wC6.runSql [qGood, qBad] []).failedQueries ≠ [])
  ∧ (∀ name recs, ExEvent.failureFile name recs ∈ execute true wC6 →
      name = "failed_queries_" ++ wC6.dateStr ++ ".json"
      ∧ recs = (executeAllQueries wC6.runSql [qGood, qBad] []).failedQueries
      ∧ ∀ rec ∈ recs, rec.success = false
          ∧ ∃ q ∈ ([qGood, qBad] : List QueryData),
              rec = executeSingleQuery wC6.runSql q ∧ rec.mdm_sql = some q.mdm_sql) := by
  exact execute_failure_artifact_exact true wC6 [qGood, qBad] [ExEvent.guardNoop]
    rfl rfl rfl (by decide)

/-- C9: evaluation at the failing input. When `fetchDeltaQueries` throws, the
catch block of `execute()` calls `process.exit(1)`, which terminates the
process before the `finally` block can run, so `sequelize.close()` is never
invoked on that path (no `connClosed` event in the trace); on a successful
path the `finally` block does run and the connection is closed. This
contradicts the claim that the connection is released on every exit path. -/
theorem execute_error_path_skips_close :
    execute true wC9 = [ExEvent.authed, ExEvent.exited 1]
  ∧ (execute true wC9).any isConnClosed = false
  ∧ (execute true wC9ok).any isConnClosed = true := by
  exact ⟨rfl, rfl, rfl⟩

theorem runAttempts_tries_le (fuel : Nat) :
    ∀ a cmd ff, (runAttempts fuel a cmd ff).2.2 ≤ fuel := by
  induction fuel with
  | zero =>
    intro a cmd ff
    simp [runAttempts]
  | succ n ih =>
    intro a cmd ff
    rw [runAttempts]
    by_cases h : (cmd a).1 = true
    · rw [if_pos h]
      exact Nat.succ_le_succ (Nat.zero_le n)
    · rw [if_neg h]
      show (runAttempts n (a + 1) cmd (ff ++ attemptLines a (cmd a).2)).2.2 + 1 ≤ n + 1
      have := ih (a + 1) cmd (ff ++ attemptLines a (cmd a).2)
      omega

theorem run_cmd_with_retry_tries_le (cmd : Nat → Bool × String) (ff : List String) :
    (run_cmd_with_retry cmd ff).2.2 ≤ 2 :=
  runAttempts_tries_le 2 1 cmd ff


theorem runAttempts_log_mono (fuel : Nat) :
    ∀ a cmd ff x, x ∈ ff → x ∈ (runAttempts fuel a cmd ff).2.1 := by
  induction fuel with
  | zero =>
    intro a cmd ff x hx
    exact hx
  | succ n ih =>
    intro a cmd ff x hx
    rw [runAttempts]
    by_cases h : (cmd a).1 = true
    · rw [if_pos h]
      exact hx
    · rw [if_neg h]
      show x ∈ (runAttempts n (a + 1) cmd (ff ++ attemptLines a (cmd a).2)).2.1
      exact ih (a + 1) cmd _ x (List.mem_append.mpr (Or.inl hx))

theorem runAttempts_all_fail (fuel : Nat) :
    ∀ a cmd ff, (∀ k, a ≤ k → k < a + fuel → (cmd k).1 = false) →
      (runAttempts fuel a cmd ff).1 = false
    ∧ (runAttempts fuel a cmd ff).2.2 = fuel
    ∧ ∀ k, a ≤ k → k < a + fuel → (cmd k).2 ∈ (runAttempts fuel a cmd ff).2.1 := by
  induction fuel with
  | zero =>
    intro a cmd ff _
    refine ⟨rfl, rfl, ?_⟩
    intro k hk1 hk2
    omega
  | succ n ih =>
    intro a cmd ff hall
    have ha : ¬ (cmd a).1 = true := by
      rw [hall a (Nat.le_refl a) (by omega)]
      exact Bool.false_ne_true
    have hrest : ∀ k, a + 1 ≤ k → k < a + 1 + n → (cmd k).1 = false := by
      intro k hk1 hk2
      exact hall k (by omega) (by omega)
    rcases ih (a + 1) cmd (ff ++ attemptLines a (cmd a).2) hrest with ⟨ih1, ih2, ih3⟩
    rw [runAttempts, if_neg ha]
    refine ⟨ih1, ?_, ?_⟩
    · show (runAttempts n (a + 1) cmd (ff ++ attemptLines a (cmd a).2)).2.2 + 1 = n + 1
      rw [ih2]
    · intro k hk1 hk2
      show (cmd k).2 ∈ (runAttempts n (a + 1) cmd (ff ++ attemptLines a (cmd a).2)).2.1
      by_cases hk : k = a
      · subst hk
        refine runAttempts_log_mono n (k + 1) cmd _ _ ?_
        refine List.mem_append.mpr (Or.inr ?_)
        rw [attemptLines]
        exact List.mem_cons.mpr (Or.inr (List.mem_cons.mpr (Or.inl rfl)))
      · exact ih3 k (by omega) (by omega)

/-- C5: every unit of the runner's fixed ordered month list is processed — a
failed unit never terminates the run — each stage of a unit is attempted at
most 2 times (the source retry budget), and a unit whose first stage fails on
every attempt is marked failed after exactly 2 attempts with every failed
attempt's output captured in its failure log, while its second stage is never
attempted. -/
theorem workflow_retry_budget_and_continue (months : List MonthSpec) (m : MonthSpec)
    (hm : m ∈ months) :
    (workflow months).length = months.length
  ∧ processMonth m ∈ workflow months
  ∧ (processMonth m).part1Tries ≤ 2
  ∧ (processMonth m).part2Tries ≤ 2
  ∧ (m.invoiceExists = true → (m.part1 1).1 = false → (m.part1 2).1 = false →
      (processMonth m).status = MonthStatus.part1Failed
      ∧ (processMonth m).part1Tries = 2
      ∧ (processMonth m).part2Tries = 0
      ∧ (m.part1 1).2 ∈ (processMonth m).failLog
      ∧ (m.part1 2).2 ∈ (processMonth m).failLog) := by
  refine ⟨by rw [workflow, List.length_map], by rw [workflow]; exact List.mem_map_of_mem processMonth hm, ?_, ?_, ?_⟩
  · rw [processMonth]
    by_cases hinv : m.invoiceExists = false
    · rw [if_pos hinv]
      exact Nat.zero_le 2
    · rw [if_neg hinv]
      by_cases hr1 : (run_cmd_with_retry m.part1 []).1 = true
      · rw [if_pos hr1]
        by_cases hr2 : (run_cmd_with_retry m.part2 (run_cmd_with_retry m.part1 []).2.1).1 = true
        · rw [if_pos hr2]
          exact run_cmd_with_retry_tries_le m.part1 []
        · rw [if_neg hr2]
          exact run_cmd_with_retry_tries_le m.part1 []
      · rw [if_neg hr1]
        exact run_cmd_with_retry_tries_le m.part1 []
  · rw [processMonth]
    by_cases hinv : m.invoiceExists = false
    · rw [if_pos hinv]
      exact Nat.zero_le 2
    · rw [if_neg hinv]
      by_cases hr1 : (run_cmd_with_retry m.part1 []).1 = true
      · rw [if_pos hr1]
        by_cases hr2 : (run_cmd_with_retry m.part2 (run_cmd_with_retry m.part1 []).2.1).1 = true
        · rw [if_pos hr2]
          exact run_cmd_with_retry_tries_le m.part2 _
        · rw [if_neg hr2]
          exact run_cmd_with_retry_tries_le m.part2 _
      · rw [if_neg hr1]
        exact Nat.zero_le 2
  · intro hinv h1 h2
    have hall : ∀ k, 1 ≤ k → k < 1 + 2 → (m.part1 k).1 = false := by
      intro k hk1 hk2
      interval_cases k
      · exact h1
      · exact h2
    rcases runAttempts_all_fail 2 1 m.part1 [] hall with ⟨hf1, hf2, hf3⟩
    have hfr1 : (run_cmd_with_retry m.part1 []).1 = false := hf1
    have hfr2 : (run_cmd_with_retry m.part1 []).2.2 = 2 := hf2
    have hne : ¬ m.invoiceExists = false := by
      rw [hinv]
      exact fun hx => Bool.noConfusion hx
    have hnr1 : ¬ (run_cmd_with_retry m.part1 []).1 = true := by
      rw [hfr1]
      exact Bool.false_ne_true
    rw [processMonth, if_neg hne, if_neg hnr1]
    refine ⟨rfl, hfr2, rfl, ?_, ?_⟩
    · exact hf3 1 (by omega) (by omega)
    · exact hf3 2 (by omega) (by omega)

/-- Witness for C5: a one-month list whose first stage always fails is
processed to the failed-and-logged state with both attempt outputs captured,
and the run still covers the whole list. -/
theorem workflow_retry_budget_witness :
    (workflow [mC5]).length = 1
  ∧ (processMonth mC5).status = MonthStatus.part1Failed
  ∧ (processMonth mC5).part1Tries = 2
  ∧ (processMonth mC5).part2Tries = 0
  ∧ (mC5.part1 1).2 ∈ (processMonth mC5).failLog
  ∧ (mC5.part1 2).2 ∈ (processMonth mC5).failLog := by
  have h := workflow_retry_budget_and_continue [mC5] mC5 (by simp)
  rcases h with ⟨hlen, _, _, _, hfail⟩
  rcases hfail rfl rfl rfl with ⟨hs, ht1, ht2, ho1, ho2⟩
  exact ⟨hlen, hs, ht1, ht2, ho1, ho2⟩

/-- C8: for every concurrency limit of at least 1, every state reachable
during one bounded-executor invocation has at most that many operations in
flight (the admit rule of the `eachOfLimit` pool only fires below the
ceiling), and the limit used by `executeAllQueries` is the source constant
500, inside the documented 200 to 500 range. -/
theorem pool_inflight_bounded (L : Nat) (exec : String → Except String Unit)
    (qs : List QueryData) (s : PoolState) (hL : 1 ≤ L)
    (h : PoolReach L exec qs s) :
    s.inFlight.length ≤ L ∧ CONCURRENCY_LIMIT = 500
  ∧ 200 ≤ CONCURRENCY_LIMIT ∧ CONCURRENCY_LIMIT ≤ 500 := by
  refine ⟨?_, rfl, by decide, by decide⟩
  induction h with
  | init => exact Nat.zero_le L
  | step s1 t hreach hstep ih =>
    cases hstep with
    | start q rest s1 hp hlt =>
      show (q :: s1.inFlight).length ≤ L
      rw [List.length_cons]
      exact hlt
    | complete q s1 hq =>
      show (s1.inFlight.erase q).length ≤ L
      have he := List.length_erase_of_mem hq
      omega

/-- Witness for C8 at the initial state of a one-operation batch with limit 1. -/
theorem pool_inflight_bounded_witness :
    (initPool [qGood]).inFlight.length ≤ 1 ∧ CONCURRENCY_LIMIT = 500
  ∧ 200 ≤ CONCURRENCY_LIMIT ∧ CONCURRENCY_LIMIT ≤ 500 := by
  exact pool_inflight_bounded 1 execBoom [qGood] (initPool [qGood]) (by decide) PoolReach.init

/-- C10: at the CLI entry point the safe-delete pass is enabled iff the third
command-line argument is absent or parses in base 10 to a nonzero integer;
in particular the non-numeric argument `true` parses to NaN (`none`) and
silently disables safe delete, while an absent argument — the documented
default — enables it. -/
theorem cli_safe_delete_flag_semantics :
    safeDeleteEnabled none = true
  ∧ (∀ s : String, safeDeleteEnabled (some s) = true
      ↔ ∃ n : Int, jsParseInt10 s = some n ∧ n ≠ 0)
  ∧ jsParseInt10 "true" = none
  ∧ safeDeleteEnabled (some "true") = false := by
  refine ⟨by decide, ?_, by decide, by decide⟩
  intro s
  constructor
  · intro h
    rw [safeDeleteEnabled, decide_eq_true_eq] at h
    rw [safeDeleteFlagOfArg] at h
    cases hp : jsParseInt10 (Option.getD (some s) "1") with
    | none =>
      rw [hp] at h
      exact absurd rfl h
    | some n =>
      rw [hp] at h
      by_cases hn : n = 0
      · simp [hn] at h
      · exact ⟨n, hp, hn⟩
  · rintro ⟨n, hp, hn⟩
    rw [safeDeleteEnabled, decide_eq_true_eq, safeDeleteFlagOfArg]
    have hg : Option.getD (some s) "1" = s := rfl
    rw [hg, hp]
    simp [hn]

/-- Witness for C10: a nonzero numeric argument enables the pass and the
string `true` disables it. -/
theorem cli_safe_delete_flag_semantics_witness :
    safeDeleteEnabled (some "7") = true ∧ safeDeleteEnabled (some "true") = false := by
  refine ⟨?_, cli_safe_delete_flag_semantics.2.2.2⟩
  exact (cli_safe_delete_flag_semantics.2.1 "7").mpr ⟨7, by decide, by decide⟩
